import Mathlib

/-!
# Verification of the Silene will-execution and distribution engine

Shallow embedding of the core of `src/backend/willService.ts`,
`src/backend/database.ts` and the weighted-reallocation part of
`src/frontend/src/services/kiteService.ts`, together with theorems
settling the specification's claims about them.

JavaScript `number` arithmetic on percentages is modelled over `ℚ`
(the code keeps percentages to one decimal place, where rational and
binary-float arithmetic agree on all values exercised here); `BigInt`
amounts are modelled over `ℤ`.
-/

namespace Silene

/-- `Math.round` (round half up, as for the non-negative values used by the
code): `Math.round(x) = ⌊x + 1/2⌋`. -/
def jsRound (q : ℚ) : ℤ := ⌊q + 1/2⌋

/-- `Math.floor`. -/
def jsFloor (q : ℚ) : ℤ := ⌊q⌋

/-- `Math.min` on numbers. -/
def jsMin (a b : ℚ) : ℚ := min a b

/-- `s.toLowerCase()`: character-wise lowering (the addresses and ASCII
names the system compares are covered exactly by `Char.toLower`). -/
def jsToLower (s : String) : String := String.mk (s.data.map Char.toLower)

/-- Round a percentage to one decimal place: `Math.round(x * 10) / 10`. -/
def roundTenth (q : ℚ) : ℚ := (jsRound (q * 10) : ℚ) / 10

/-- Truncate a percentage down to one decimal place: `Math.floor(x * 10) / 10`. -/
def floorTenth (q : ℚ) : ℚ := (jsFloor (q * 10) : ℚ) / 10

/-! ## Data model (from `database.ts` / `willService.ts`) -/

/-- `SpendingLimits` (willService.ts:61): the wei string fields are
arbitrary-precision integers, modelled over `ℤ`. -/
structure SpendingLimits where
  perTxLimit : ℤ
  dailyLimit : ℤ
  dailySpent : ℤ
  lastResetDate : String
  deriving Repr, DecidableEq

/-- Backend `Beneficiary` (willService.ts:69). -/
structure Beneficiary where
  address : String
  percentage : ℚ
  name : String
  deriving Repr, DecidableEq

inductive WillStatus where
  | pending | executed | expired
  deriving Repr, DecidableEq

/-- `StoredWillAuthorization` (database.ts:126). -/
structure StoredWill where
  willId : String
  owner : String
  beneficiaries : List Beneficiary
  totalAmount : String
  validUntil : ℤ
  signature : String
  createdAt : ℤ
  status : WillStatus
  useStablecoin : Bool
  spendingLimits : SpendingLimits
  aaWallet : Option String := none
  kitepassAddress : Option String := none
  useKitepass : Bool
  spendingRulesConfigured : Bool
  deriving Repr, DecidableEq

inductive LinkedWalletStatus where
  | pending | approved | removed
  deriving Repr, DecidableEq

/-- `LinkedWallet` row (database.ts linked_wallets table). -/
structure LinkedWallet where
  willId : String
  address : String
  signature : String
  approvedAt : ℤ
  status : LinkedWalletStatus
  deriving Repr, DecidableEq

inductive TxType where
  | DEATH_DECLARATION | DISTRIBUTION
  deriving Repr, DecidableEq

inductive TxStatus where
  | pending | confirmed | failed
  deriving Repr, DecidableEq

/-- `TransactionRecord` (database.ts:262). -/
structure TransactionRecord where
  txHash : String
  willId : String
  owner : String
  beneficiaryAddress : String
  beneficiaryName : String
  amount : ℤ
  tokenSymbol : String
  txType : TxType
  status : TxStatus
  createdAt : ℤ
  deriving Repr, DecidableEq

inductive ResultStatus where
  | confirmed | failed
  deriving Repr, DecidableEq

/-- `ExecutionResult` (willService.ts:76). -/
structure ExecutionResult where
  beneficiary : String
  txHash : String
  amount : ℤ
  status : ResultStatus
  tokenSymbol : String
  error : Option String := none
  deriving Repr, DecidableEq

/-! ## Persistent store (`database.ts`) -/

/-- The SQLite store: wills keyed by `willId`, append-only transactions,
linked-wallet rows (kept in `approvedAt` insertion order, which is the
order `ORDER BY approvedAt ASC` returns). -/
structure Store where
  wills : List StoredWill
  linkedWallets : List LinkedWallet
  transactions : List TransactionRecord
  deriving Repr, DecidableEq

/-- `getWillById` (database.ts:180): `SELECT * FROM wills WHERE willId = ?`. -/
def getWillById (s : Store) (willId : String) : Option StoredWill :=
  s.wills.find? (fun w => w.willId = willId)

/-- `getLinkedWalletsByWillId` (database.ts:498):
`WHERE willId = ? AND status = 'approved' ORDER BY approvedAt ASC`. -/
def getLinkedWalletsByWillId (s : Store) (willId : String) : List LinkedWallet :=
  s.linkedWallets.filter
    (fun lw => lw.willId = willId ∧ lw.status = LinkedWalletStatus.approved)

/-- `updateWillStatus` (database.ts:229):
`UPDATE wills SET status = ? WHERE willId = ?`. -/
def updateWillStatus (s : Store) (willId : String) (st : WillStatus) : Store :=
  { s with wills := s.wills.map (fun w =>
      if w.willId = willId then { w with status := st } else w) }

/-- `updateWillSpendingLimits` (database.ts:238):
`UPDATE wills SET spendingLimits = ? WHERE willId = ?`.  Imported by the
engine (willService.ts:19) but never invoked there. -/
def updateWillSpendingLimits (s : Store) (willId : String)
    (limits : SpendingLimits) : Store :=
  { s with wills := s.wills.map (fun w =>
      if w.willId = willId then { w with spendingLimits := limits } else w) }

/-- `saveTransaction` (database.ts:279): `INSERT OR REPLACE INTO transactions`,
modelled as an append to the log. -/
def saveTransaction (s : Store) (tx : TransactionRecord) : Store :=
  { s with transactions := s.transactions ++ [tx] }

/-! ## Spending Limiter (willService.ts:177) -/

structure CheckResult where
  allowed : Bool
  reason : Option String := none
  deriving Repr, DecidableEq

/-- The lazy daily reset inside `checkSpendingLimits`: if
`limits.lastResetDate !== today` zero `dailySpent` and stamp `today`. -/
def resetLimits (today : String) (limits : SpendingLimits) : SpendingLimits :=
  if limits.lastResetDate ≠ today then
    { limits with dailySpent := 0, lastResetDate := today }
  else limits

/-- `checkSpendingLimits(will, amount)` (willService.ts:177).  The source
mutates `will.spendingLimits` in place for the daily reset; the embedding
returns the updated limits together with the decision.  `today` is
`new Date().toISOString().split('T')[0]`, passed here as a parameter. -/
def checkSpendingLimits (today : String) (limits : SpendingLimits)
    (amount : ℤ) : SpendingLimits × CheckResult :=
  let limits := resetLimits today limits
  if amount > limits.perTxLimit then
    (limits, { allowed := false, reason := some "Exceeds per-transaction limit" })
  else if limits.dailySpent + amount > limits.dailyLimit then
    (limits, { allowed := false, reason := some "Exceeds daily limit" })
  else
    (limits, { allowed := true })

/-- `updateDailySpent(will, amount)` (willService.ts:206). -/
def updateDailySpent (limits : SpendingLimits) (amount : ℤ) : SpendingLimits :=
  { limits with dailySpent := limits.dailySpent + amount }

/-! ## Fan-out amount arithmetic (willService.ts:481-489) -/

/-- Per-beneficiary amount:
`percentageScaled = Math.round(percentage * 10)`;
`amount = walletBalance * BigInt(percentageScaled) / 1000n`
(`BigInt` division truncates; operands are non-negative in every use). -/
def computeAmount (walletBalance : ℤ) (percentage : ℚ) : ℤ :=
  Int.tdiv (walletBalance * jsRound (percentage * 10)) 1000

/-! ## Collaborator environment

Every external call the engine awaits (ledger queries, transfers, the
attestation contract, the KitePass vault) is modelled as a pre-supplied
outcome: `.ok` for a successful call, `.error msg` for a thrown/failed one. -/

structure Env where
  /-- `new Date().toISOString().split('T')[0]` (UTC calendar date). -/
  today : String
  /-- `Date.now()`. -/
  now : ℤ
  /-- `provider.getBalance(custodyWallet.address)` (wei). -/
  custodyGasBalance : ℤ
  /-- Whether `DEATH_CERTIFICATE_ADDRESS` is configured (non-empty). -/
  deathCertConfigured : Bool
  /-- The configured `DEATH_CERTIFICATE_ADDRESS`. -/
  deathCertAddress : String
  /-- Outcome of `deathContract.recordDeath(...)` + `tx.wait()`. -/
  deathRecord : Except String String
  /-- Outcome of `tokenContract.symbol()` (awaited only in stablecoin mode). -/
  symbolQuery : Except String String
  /-- `tokenContract.balanceOf(wallet)`; `.error` models a thrown query. -/
  tokenBalanceOf : String → Except String ℤ
  /-- `provider.getBalance(wallet)` for linked wallets (raw, pre-reserve). -/
  nativeBalance : String → Except String ℤ
  /-- `tokenContract.allowance(wallet, custodyWallet.address)`. -/
  allowance : String → Except String ℤ
  /-- `tokenContract.transferFrom(from, to, amount)` + `tx.wait()`:
  `.ok txHash` on confirmation. -/
  transferFrom : String → String → ℤ → Except String String
  /-- `custodyWallet.sendTransaction({to, value})` + `tx.wait()`. -/
  sendNative : String → ℤ → Except String String
  /-- `kitepassGetBalance(vault)` already parsed to smallest units
  (`parseUnits(balance, 6)`); `.error` covers both a thrown call and a
  `{success: false}` result. -/
  vaultBalance : Except String ℤ
  /-- `kitepassWithdraw(owner, vault, amount, key)`: outcome keyed by the
  withdrawn amount (owner and vault are fixed per run). -/
  kitepassWithdraw : ℤ → Except String String

/-- `ethers.parseEther('0.05')`: minimum custody gas (willService.ts:354). -/
def minGasRequired : ℤ := 5 * 10 ^ 16

/-- `ethers.parseEther('0.01')`: native-transfer gas reserve
(willService.ts:458). -/
def gasReserve : ℤ := 10 ^ 16

/-- Outcome shape of `executeWill` / `executeWithKitepass`. -/
structure ExecOutcome where
  success : Bool
  transactions : Option (List ExecutionResult) := none
  deathTxHash : Option String := none
  error : Option String := none
  deriving Repr, DecidableEq

/-! ## Lifecycle Controller and Fan-out Executor (willService.ts:305-766) -/

/-- The death-declaration block (willService.ts:369-418, 620-663): skipped
when the registry address is unconfigured; any error is caught and
non-blocking; on success the attestation transaction is persisted. -/
def recordDeathDeclaration (env : Env) (store : Store) (will : StoredWill) :
    Option String × Store :=
  if ¬env.deathCertConfigured then (none, store)
  else
    match env.deathRecord with
    | .error _ => (none, store)
    | .ok hash =>
        (some hash, saveTransaction store
          { txHash := hash
            willId := will.willId
            owner := will.owner
            beneficiaryAddress := env.deathCertAddress
            beneficiaryName := "Death Certificate Registry"
            amount := 0
            tokenSymbol := "KITE"
            txType := TxType.DEATH_DECLARATION
            status := TxStatus.confirmed
            createdAt := env.now })

/-- One beneficiary of the inner fan-out loop (willService.ts:481-572):
compute the amount, skip when zero (`continue`, producing no result),
consult the Spending Limiter (whose lazy reset mutates the in-memory will
either way), record a `failed` result on rejection, otherwise submit the
transfer and on confirmation commit the spent amount and persist the
distribution record. -/
def processBeneficiary (env : Env) (useStable : Bool) (tokenSymbol : String)
    (walletAddr : String) (will : StoredWill) (store : Store)
    (walletBalance : ℤ) (b : Beneficiary) :
    StoredWill × Store × Option ExecutionResult :=
  let amount := computeAmount walletBalance b.percentage
  if amount = 0 then (will, store, none)
  else
    let checked := checkSpendingLimits env.today will.spendingLimits amount
    let will := { will with spendingLimits := checked.1 }
    if ¬checked.2.allowed then
      (will, store, some
        { beneficiary := b.name, txHash := "", amount := amount
          status := ResultStatus.failed, tokenSymbol := tokenSymbol
          error := checked.2.reason })
    else
      let txOutcome :=
        if useStable then env.transferFrom walletAddr b.address amount
        else env.sendNative b.address amount
      match txOutcome with
      | .error msg =>
          (will, store, some
            { beneficiary := b.name, txHash := "", amount := amount
              status := ResultStatus.failed, tokenSymbol := tokenSymbol
              error := some msg })
      | .ok txHash =>
          let will :=
            { will with spendingLimits := updateDailySpent will.spendingLimits amount }
          let store := saveTransaction store
            { txHash := txHash
              willId := will.willId
              owner := walletAddr
              beneficiaryAddress := b.address
              beneficiaryName := b.name
              amount := amount
              tokenSymbol := tokenSymbol
              txType := TxType.DISTRIBUTION
              status := TxStatus.confirmed
              createdAt := env.now }
          (will, store, some
            { beneficiary := b.name, txHash := txHash, amount := amount
              status := ResultStatus.confirmed, tokenSymbol := tokenSymbol })

/-- The inner `for (const beneficiary of will.beneficiaries)` loop, threading
the in-memory will (spending limits) and the store. -/
def processBeneficiaries (env : Env) (useStable : Bool) (tokenSymbol : String)
    (walletAddr : String) (walletBalance : ℤ)
    (acc : StoredWill × Store × List ExecutionResult)
    (bs : List Beneficiary) : StoredWill × Store × List ExecutionResult :=
  bs.foldl (fun acc b =>
    let r := processBeneficiary env useStable tokenSymbol walletAddr
      acc.1 acc.2.1 walletBalance b
    (r.1, r.2.1, acc.2.2 ++ r.2.2.toList)) acc

/-- The wallet's distributable-balance query (willService.ts:450-462):
the stablecoin balance as-is, or the native balance net of the gas
reserve; `.error` models a thrown provider call. -/
def walletBalanceQuery (env : Env) (useStable : Bool) (lw : LinkedWallet) :
    Except String ℤ :=
  if useStable then env.tokenBalanceOf lw.address
  else (env.nativeBalance lw.address).map
    (fun raw => if raw > gasReserve then raw - gasReserve else 0)

/-- One linked wallet of the fan-out (willService.ts:445-576).  The whole
wallet body sits in a `try`: a thrown balance or allowance query aborts only
this wallet (no results are recorded for it).  A zero distributable balance
(raw balance minus the gas reserve for native transfers) or a zero stablecoin
allowance skips the wallet via `continue`. -/
def processWallet (env : Env) (useStable : Bool) (tokenSymbol : String)
    (acc : StoredWill × Store × List ExecutionResult) (lw : LinkedWallet) :
    StoredWill × Store × List ExecutionResult :=
  match walletBalanceQuery env useStable lw with
  | .error _ => acc
  | .ok walletBalance =>
    if walletBalance = 0 then acc
    else if useStable then
      match env.allowance lw.address with
      | .error _ => acc
      | .ok a =>
          if a = 0 then acc
          else processBeneficiaries env useStable tokenSymbol lw.address
            walletBalance acc acc.1.beneficiaries
    else
      processBeneficiaries env useStable tokenSymbol lw.address
        walletBalance acc acc.1.beneficiaries

/-- `will.useKitepass && will.kitepassAddress` with JavaScript truthiness
(an empty-string address is falsy). -/
def kitepassEnabled (will : StoredWill) : Bool :=
  will.useKitepass &&
    (match will.kitepassAddress with
     | some a => a ≠ ""
     | none => false)

/-- One beneficiary of the KitePass withdrawal loop
(willService.ts:686-752): compute the amount, skip when zero, call the
vault withdrawal, persist a confirmed record on success, record a failed
result with the error otherwise.  No spending-limit consultation. -/
def kitepassStep (env : Env) (will : StoredWill) (vaultBalance : ℤ)
    (acc : Store × List ExecutionResult) (b : Beneficiary) :
    Store × List ExecutionResult :=
  let amount := computeAmount vaultBalance b.percentage
  if amount = 0 then acc
  else
    match env.kitepassWithdraw amount with
    | .ok txHash =>
        (saveTransaction acc.1
          { txHash := txHash
            willId := will.willId
            owner := will.kitepassAddress.getD ""
            beneficiaryAddress := b.address
            beneficiaryName := b.name
            amount := amount
            tokenSymbol := "USDT"
            txType := TxType.DISTRIBUTION
            status := TxStatus.confirmed
            createdAt := env.now },
          acc.2 ++ [{ beneficiary := b.name, txHash := txHash
                      amount := amount
                      status := ResultStatus.confirmed
                      tokenSymbol := "USDT" }])
    | .error msg =>
        (acc.1,
          acc.2 ++ [{ beneficiary := b.name, txHash := ""
                      amount := amount
                      status := ResultStatus.failed
                      tokenSymbol := "USDT"
                      error := some msg }])

/-- `executeWithKitepass` (willService.ts:596-766): gas check, attestation,
vault balance (a failed query is **fatal**), then per-beneficiary withdrawals
with no spending-limit consultation, and the terminal status transition. -/
def executeWithKitepass (env : Env) (store : Store) (will : StoredWill) :
    ExecOutcome × Store :=
  if env.custodyGasBalance < minGasRequired then
    ({ success := false, error := some "Custody wallet has insufficient gas" }, store)
  else
    let death := recordDeathDeclaration env store will
    let store := death.2
    match env.vaultBalance with
    | .error _ =>
        ({ success := false, error := some "Failed to get KitePass vault balance" },
          store)
    | .ok vaultBalance =>
      if vaultBalance = 0 then
        ({ success := true, transactions := some [], deathTxHash := death.1 },
          updateWillStatus store will.willId WillStatus.executed)
      else
        let run := will.beneficiaries.foldl
          (kitepassStep env will vaultBalance) (store, [])
        ({ success := true, transactions := some run.2, deathTxHash := death.1 },
          updateWillStatus run.1 will.willId WillStatus.executed)

/-- Rendering of `will.status` in the `Will already ${will.status}` error. -/
def WillStatus.str : WillStatus → String
  | WillStatus.pending => "pending"
  | WillStatus.executed => "executed"
  | WillStatus.expired => "expired"

/-- The Approve-mode body of `executeWill` (willService.ts:345-585), run
once validation, the override and the KitePass branch are behind us: the
custody gas check, the non-blocking attestation, the approved-linked-wallet
enumeration (falling back to the owner wallet), the token-metadata query,
the fan-out, and the terminal status update. -/
def runApproveExecution (env : Env) (store : Store) (willId : String)
    (will : StoredWill) : ExecOutcome × Store :=
  if env.custodyGasBalance < minGasRequired then
    ({ success := false, error := some "Custody wallet has insufficient gas" },
      store)
  else
    let death := recordDeathDeclaration env store will
    let store := death.2
    let linkedWallets := getLinkedWalletsByWillId store willId
    let linkedWallets :=
      if linkedWallets = [] then
        [{ willId := willId, address := will.owner
           signature := will.signature, approvedAt := will.createdAt
           status := LinkedWalletStatus.approved }]
      else linkedWallets
    let symRes : Except String String :=
      if will.useStablecoin then env.symbolQuery else .ok "KITE"
    match symRes with
    | .error msg => ({ success := false, error := some msg }, store)
    | .ok tokenSymbol =>
      let run := linkedWallets.foldl
        (processWallet env will.useStablecoin tokenSymbol) (will, store, [])
      ({ success := true, transactions := some run.2.2, deathTxHash := death.1 },
        updateWillStatus run.2.1 willId WillStatus.executed)

/-- The optional beneficiary override (willService.ts:329-332): a
non-empty override list replaces the in-memory will's beneficiaries. -/
def applyOverride (ov : Option (List Beneficiary)) (will : StoredWill) :
    StoredWill :=
  match ov with
  | some obs => if obs ≠ [] then { will with beneficiaries := obs } else will
  | none => will

/-- `executeWill` (willService.ts:305-590): validation (not found / owner
mismatch / non-pending status) fails fast with no mutation; then the
optional beneficiary override, the KitePass branch, and the Approve-mode
body. -/
def executeWill (env : Env) (store : Store) (willId : String) (owner : String)
    (overrideBeneficiaries : Option (List Beneficiary) := none) :
    ExecOutcome × Store :=
  match getWillById store willId with
  | none => ({ success := false, error := some "Will not found" }, store)
  | some will =>
    if jsToLower will.owner ≠ jsToLower owner then
      ({ success := false, error := some "Owner mismatch" }, store)
    else if will.status ≠ WillStatus.pending then
      ({ success := false, error := some ("Will already " ++ will.status.str) }, store)
    else
      let will := applyOverride overrideBeneficiaries will
      if kitepassEnabled will then executeWithKitepass env store will
      else runApproveExecution env store willId will

/-! ## Signature Verifier canonicalization (willService.ts:128-172)

The verifier receives the beneficiary list parsed from the client's JSON
request, so each element is a JavaScript object whose key order (and extra
keys) the client controls; an object is modelled as its insertion-ordered
entry list.  `verifyWillAuthorization` first canonicalizes each element to
a fresh `{address, name, percentage}` literal and `JSON.stringify`s the
resulting array into the signed message's `beneficiaries` string. -/

inductive JsonPrim where
  | str (s : String)
  | num (q : ℚ)
  deriving Repr, DecidableEq

/-- A beneficiary object as it arrives from the wire: insertion-ordered
key/value entries. -/
structure RawBeneficiary where
  entries : List (String × JsonPrim)
  deriving Repr, DecidableEq

/-- JavaScript property read `b[k]` (first entry wins). -/
def RawBeneficiary.get (b : RawBeneficiary) (k : String) : Option JsonPrim :=
  (b.entries.find? (fun e => e.1 = k)).map (fun e => e.2)

/-- String-typed property read (`b.address`, `b.name`). -/
def RawBeneficiary.getStr (b : RawBeneficiary) (k : String) : String :=
  match b.get k with
  | some (JsonPrim.str s) => s
  | _ => ""

/-- `Number(b.percentage)` for an already-numeric property. -/
def RawBeneficiary.getNum (b : RawBeneficiary) (k : String) : ℚ :=
  match b.get k with
  | some (JsonPrim.num q) => q
  | _ => 0

/-- The canonical literal `{address: b.address, name: b.name,
percentage: Number(b.percentage)}` (willService.ts:137-141). -/
def canonicalBeneficiary (b : RawBeneficiary) : Beneficiary :=
  { address := b.getStr "address"
    name := b.getStr "name"
    percentage := b.getNum "percentage" }

/-- `beneficiaries.map(b => ({address, name, percentage}))`. -/
def canonicalBeneficiaries (bs : List RawBeneficiary) : List Beneficiary :=
  bs.map canonicalBeneficiary

/-- `JSON.stringify` of a number.  The values this system serializes are
integers or one-decimal percentages, for which JavaScript prints `n` or
`n.d`; other denominators do not occur. -/
def jsonNum (q : ℚ) : String :=
  if q.den = 1 then toString q.num
  else toString ((q * 10).num / 10) ++ "." ++ toString ((q * 10).num % 10)

/-- `JSON.stringify` of a string (the addresses and names in play contain
no characters that JSON escapes). -/
def jsonStr (s : String) : String := "\"" ++ s ++ "\""

/-- `JSON.stringify` of one canonical beneficiary literal: its key order is
the literal's insertion order `address, name, percentage`. -/
def encodeBeneficiary (b : Beneficiary) : String :=
  "\x7b\"address\":" ++ jsonStr b.address ++ ",\"name\":" ++ jsonStr b.name
    ++ ",\"percentage\":" ++ jsonNum b.percentage ++ "\x7d"

/-- `beneficiariesStr = JSON.stringify(canonicalBeneficiaries)`
(willService.ts:143): the exact string hashed into the signed payload. -/
def beneficiariesStr (bs : List RawBeneficiary) : String :=
  "[" ++ String.intercalate "," ((canonicalBeneficiaries bs).map encodeBeneficiary)
    ++ "]"

/-! ## Weighted Reallocation Engine (kiteService.ts:1384-1533)

`calculateWeightedDistribution` first awaits `quantifySocialIntents`, an
LLM call whose structured output is supplied here as the
`socialBeneficiaries` argument; everything after that await is pure and is
embedded below.  The `intentMatch` argument is kept: the source receives
it but the weights are fixed. -/

/-- Frontend `Beneficiary` (types.ts:10). -/
structure FrontBeneficiary where
  name : String
  category : String
  percentage : ℚ
  walletAddress : String
  reason : String
  deriving Repr, DecidableEq

inductive SocialAction where
  | ADD | REMOVE | ADJUST
  deriving Repr, DecidableEq

/-- `SocialBeneficiary` (kiteService.ts:1291). -/
structure SocialBeneficiary where
  name : String
  percentage : ℚ
  intent : String
  relationship : String
  trustScore : ℚ
  action : SocialAction
  deriving Repr, DecidableEq

inductive AdjSource where
  | WILL | SOCIAL | BLEND
  deriving Repr, DecidableEq

/-- `AdjustmentEntry` (kiteService.ts:1303). -/
structure AdjustmentEntry where
  beneficiary : String
  originalPercentage : ℚ
  adjustedPercentage : ℚ
  reason : String
  source : AdjSource
  deriving Repr, DecidableEq

inductive Recommendation where
  | EXECUTE | REVIEW
  deriving Repr, DecidableEq

/-- `WeightedDistributionResult` (kiteService.ts:1314). -/
structure WeightedDistributionResult where
  adjustedBeneficiaries : List FrontBeneficiary
  willWeight : ℚ
  socialWeight : ℚ
  adjustmentLog : List AdjustmentEntry
  recommendation : Recommendation
  deriving Repr, DecidableEq

/-- Fixed will weight (kiteService.ts:1400). -/
def willWeight : ℚ := 4/5

/-- Fixed social weight (kiteService.ts:1401). -/
def socialWeight : ℚ := 1/5

/-- JavaScript `s.includes(t)`: `t` occurs contiguously in `s`. -/
def strIncludes (s t : String) : Bool := decide (t.toList <:+: s.toList)

/-- The REMOVE-signal lookup for one will beneficiary
(kiteService.ts:1414-1417). -/
def findExclusion (socials : List SocialBeneficiary) (wb : FrontBeneficiary) :
    Option SocialBeneficiary :=
  socials.find? (fun sb =>
    sb.action = SocialAction.REMOVE &&
      strIncludes (jsToLower sb.name) (jsToLower wb.name))

/-- Adjustment of one original will beneficiary (kiteService.ts:1413-1444):
base share `percentage × willWeight`, halved again under a REMOVE signal,
rounded to one decimal; returns the log entry and the adjusted record. -/
def adjustWillBeneficiary (socials : List SocialBeneficiary)
    (wb : FrontBeneficiary) : AdjustmentEntry × FrontBeneficiary :=
  match findExclusion socials wb with
  | some exclusion =>
      let adjustedPercentage := wb.percentage * willWeight * (1/2)
      let reason := "社交排除信号 (" ++ exclusion.intent ++ ")，保护机制保留 40%"
      ({ beneficiary := wb.name
         originalPercentage := wb.percentage
         adjustedPercentage := roundTenth adjustedPercentage
         reason := reason
         source := AdjSource.BLEND },
       { wb with percentage := roundTenth adjustedPercentage
                 reason := wb.reason ++ " [调整: " ++ reason ++ "]" })
  | none =>
      let adjustedPercentage := wb.percentage * willWeight
      let reason := "原遗嘱 × 80%"
      ({ beneficiary := wb.name
         originalPercentage := wb.percentage
         adjustedPercentage := roundTenth adjustedPercentage
         reason := reason
         source := AdjSource.WILL },
       { wb with percentage := roundTenth adjustedPercentage
                 reason := wb.reason ++ " [调整: " ++ reason ++ "]" })

/-- Social-only additions (kiteService.ts:1447-1450): ADD entries whose name
is not already mentioned by a will beneficiary. -/
def newFromSocial (willBeneficiaries : List FrontBeneficiary)
    (socials : List SocialBeneficiary) : List SocialBeneficiary :=
  socials.filter (fun sb =>
    sb.action = SocialAction.ADD &&
      !(willBeneficiaries.any (fun wb =>
          strIncludes (jsToLower wb.name) (jsToLower sb.name))))

/-- One social addition (kiteService.ts:1452-1472): proposed share
`percentage × socialWeight` hard-capped at 30, rounded to one decimal. -/
def socialAddEntry (sb : SocialBeneficiary) : AdjustmentEntry × FrontBeneficiary :=
  let cappedPercentage := jsMin (sb.percentage * socialWeight) 30
  ({ beneficiary := sb.name
     originalPercentage := 0
     adjustedPercentage := roundTenth cappedPercentage
     reason := "社交新增 (" ++ sb.relationship ++ "): " ++ sb.intent
     source := AdjSource.SOCIAL },
   { name := sb.name
     category := if sb.relationship = "" then "Unknown" else sb.relationship
     percentage := roundTenth cappedPercentage
     walletAddress := "0x53C1844Af058fE3B3195e49fEC8f97E0a4F87772"
     reason := "从社交媒体提取: \"" ++ sb.intent ++ "\"" })

/-- The pre-normalization adjusted list: adjusted originals followed by the
capped social additions. -/
def preAdjusted (willBeneficiaries : List FrontBeneficiary)
    (socials : List SocialBeneficiary) : List FrontBeneficiary :=
  willBeneficiaries.map (fun wb => (adjustWillBeneficiary socials wb).2)
    ++ (newFromSocial willBeneficiaries socials).map (fun sb => (socialAddEntry sb).2)

/-- The index the `reduce` in `normalizeToHundred` picks: the first index of
the strictly largest percentage (a later index replaces only on `>`). -/
def argmaxIdx (ps : List ℚ) : ℕ :=
  (List.range ps.length).foldl
    (fun maxI i => if ps.getD i 0 > ps.getD maxI 0 then i else maxI) 0

/-- `normalizeToHundred` (kiteService.ts:1475-1500) on the percentage
column: scale by `100/total`, truncate each to one decimal, and hand the
residual `diff` to the beneficiary with the largest share.  The source
mutates `percentage` in place on the record list; only that column is read
or written, so the embedding works on the column. -/
def normalizeToHundred (ps : List ℚ) : List ℚ :=
  let total := ps.sum
  if total = 0 then ps
  else
    let factor := 100 / total
    let scaled := ps.map (fun p => floorTenth (p * factor))
    let newTotal := scaled.sum
    let diff := roundTenth (100 - newTotal)
    if diff ≠ 0 ∧ 0 < scaled.length then
      let maxIdx := argmaxIdx scaled
      scaled.set maxIdx (roundTenth (scaled.getD maxIdx 0 + diff))
    else scaled

/-- Reattach normalized percentages to the records. -/
def setPercentages (bs : List FrontBeneficiary) (ps : List ℚ) :
    List FrontBeneficiary :=
  (bs.zip ps).map (fun p => { p.1 with percentage := p.2 })

/-- `normalizeToHundred(adjustedBeneficiaries)` applied to the record list. -/
def normalizeBeneficiaries (bs : List FrontBeneficiary) : List FrontBeneficiary :=
  setPercentages bs (normalizeToHundred (bs.map (fun b => b.percentage)))

/-- The pure tail of `calculateWeightedDistribution`
(kiteService.ts:1394-1533), with the quantified social intents supplied. -/
def calculateWeightedDistribution (willBeneficiaries : List FrontBeneficiary)
    (socials : List SocialBeneficiary) (intentMatch : ℚ) :
    WeightedDistributionResult :=
  let _ := intentMatch
  { adjustedBeneficiaries := normalizeBeneficiaries (preAdjusted willBeneficiaries socials)
    willWeight := willWeight
    socialWeight := socialWeight
    adjustmentLog :=
      willBeneficiaries.map (fun wb => (adjustWillBeneficiary socials wb).1)
        ++ (newFromSocial willBeneficiaries socials).map
            (fun sb => (socialAddEntry sb).1)
    recommendation :=
      if socialWeight > 1/2 then Recommendation.REVIEW else Recommendation.EXECUTE }

/-! # Theorems -/

/-- In every branch, `checkSpendingLimits` hands back exactly the lazily
reset limits: the check itself never commits. -/
theorem checkSpendingLimits_fst (today : String) (limits : SpendingLimits)
    (amount : ℤ) :
    (checkSpendingLimits today limits amount).1 = resetLimits today limits := by
  unfold checkSpendingLimits
  dsimp only
  split
  · rfl
  · split <;> rfl

/-- `resetLimits` keeps both caps. -/
theorem resetLimits_caps (today : String) (limits : SpendingLimits) :
    (resetLimits today limits).perTxLimit = limits.perTxLimit ∧
      (resetLimits today limits).dailyLimit = limits.dailyLimit := by
  unfold resetLimits
  split <;> exact ⟨rfl, rfl⟩

/-- C8: whenever a spending-limit check runs and `lastResetDate` differs
from today's UTC calendar date, `dailySpent` is zeroed and `lastResetDate`
stamped to today before the cap comparisons (so the daily cap is compared
against the fresh amount alone, whatever `dailySpent` was); when the dates
are equal the limits are left untouched. -/
theorem limiter_lazy_reset (today : String) (limits : SpendingLimits)
    (amount : ℤ) :
    (limits.lastResetDate ≠ today →
      (checkSpendingLimits today limits amount).1.dailySpent = 0 ∧
      (checkSpendingLimits today limits amount).1.lastResetDate = today ∧
      ((checkSpendingLimits today limits amount).2.allowed = true ↔
        amount ≤ limits.perTxLimit ∧ amount ≤ limits.dailyLimit)) ∧
    (limits.lastResetDate = today →
      (checkSpendingLimits today limits amount).1 = limits) := by
  constructor
  · intro hne
    have hreset : resetLimits today limits =
        { limits with dailySpent := 0, lastResetDate := today } := by
      unfold resetLimits
      simp [hne]
    refine ⟨by rw [checkSpendingLimits_fst, hreset], by rw [checkSpendingLimits_fst, hreset], ?_⟩
    unfold checkSpendingLimits
    rw [hreset]
    dsimp only
    split_ifs with h1 h2 <;> simp <;> omega
  · intro heq
    rw [checkSpendingLimits_fst]
    unfold resetLimits
    simp [heq]

/-- Witness for `limiter_lazy_reset` at the spec's concrete dates: a check
on 2024-01-02 with `lastResetDate = "2024-01-01"` runs against a zeroed
`dailySpent`, whatever was accumulated before. -/
theorem limiter_lazy_reset_witness :
    (checkSpendingLimits "2024-01-02"
        ⟨10, 10, 999999, "2024-01-01"⟩ 5).1.dailySpent = 0 ∧
    (checkSpendingLimits "2024-01-02"
        ⟨10, 10, 999999, "2024-01-01"⟩ 5).2.allowed = true := by
  have h := (limiter_lazy_reset "2024-01-02"
    ⟨10, 10, 999999, "2024-01-01"⟩ 5).1 (by decide)
  exact ⟨h.1, h.2.2.mpr (by decide)⟩

/-- C9: the fan-out transfer amount is
`floor(balance × round(percentage × 10) / 1000)` (percentages are rounded
to the nearest tenth before the integer math); `1000` at `36.3%` yields
`363`, and `33.33%` is rounded to `333` tenths, not truncated. -/
theorem fanout_amount_scaling :
    (∀ (B : ℤ) (p : ℚ), 0 ≤ B → 0 ≤ p →
        computeAmount B p = ⌊(B : ℚ) * (jsRound (p * 10) : ℚ) / 1000⌋) ∧
    computeAmount 1000 (363/10) = 363 ∧
    jsRound ((363/10 : ℚ) * 10) = 363 ∧
    computeAmount 1000 (3333/100) = 333 ∧
    jsRound ((3333/100 : ℚ) * 10) = 333 := by
  refine ⟨?_, by norm_num [computeAmount, jsRound, Int.tdiv],
    by norm_num [jsRound], by norm_num [computeAmount, jsRound, Int.tdiv],
    by norm_num [jsRound]⟩
  intro B p hB hp
  have hr : 0 ≤ jsRound (p * 10) := by
    apply Int.le_floor.mpr
    push_cast
    positivity
  have hcast : (B : ℚ) * (jsRound (p * 10) : ℚ) / 1000 =
      ((B * jsRound (p * 10) : ℤ) : ℚ) / ((1000 : ℕ) : ℚ) := by
    push_cast
    ring
  rw [hcast, Rat.floor_intCast_div_natCast]
  unfold computeAmount
  rw [Int.tdiv_eq_ediv (by positivity) (by norm_num)]
  norm_num

/-- Witness for `fanout_amount_scaling` at balance 500 and 25%. -/
theorem fanout_amount_scaling_witness :
    computeAmount 500 25 =
      ⌊((500 : ℤ) : ℚ) * (jsRound ((25 : ℚ) * 10) : ℚ) / 1000⌋ :=
  fanout_amount_scaling.1 500 25 (by norm_num) (by norm_num)

/-! ### Largest-remainder normalization (C4) -/

theorem tenth_sum (l : List ℚ) (h : ∀ p ∈ l, ∃ z : ℤ, p = (z : ℚ) / 10) :
    ∃ z : ℤ, l.sum = (z : ℚ) / 10 := by
  induction l with
  | nil => exact ⟨0, by simp⟩
  | cons a l ih =>
      obtain ⟨za, hza⟩ := h a (by simp)
      obtain ⟨zl, hzl⟩ := ih (fun p hp => h p (by simp [hp]))
      refine ⟨za + zl, ?_⟩
      rw [List.sum_cons, hza, hzl]
      push_cast
      ring

/-- Rounding to a tenth fixes every multiple of a tenth. -/
theorem roundTenth_tenth (z : ℤ) : roundTenth ((z : ℚ) / 10) = (z : ℚ) / 10 := by
  unfold roundTenth jsRound
  rw [div_mul_cancel₀ _ (by norm_num : (10 : ℚ) ≠ 0)]
  have h : ⌊(z : ℚ) + 1/2⌋ = z := by
    rw [add_comm, Int.floor_add_int]
    norm_num
  rw [h]

/-- Truncation to a tenth fixes every multiple of a tenth. -/
theorem floorTenth_tenth_id (z : ℤ) : floorTenth ((z : ℚ) / 10) = (z : ℚ) / 10 := by
  unfold floorTenth jsFloor
  rw [div_mul_cancel₀ _ (by norm_num : (10 : ℚ) ≠ 0), Int.floor_intCast]

theorem floorTenth_tenth (q : ℚ) : ∃ z : ℤ, floorTenth q = (z : ℚ) / 10 :=
  ⟨⌊q * 10⌋, rfl⟩

theorem sum_set_getD (L : List ℚ) (n : ℕ) (a : ℚ) (h : n < L.length) :
    (L.set n a).sum = L.sum - L.getD n 0 + a := by
  induction L generalizing n with
  | nil => simp at h
  | cons x L ih =>
      cases n with
      | zero => simp [List.set]; ring
      | succ m =>
          have hm : m < L.length := by simpa using h
          simp only [List.set, List.sum_cons, List.getD_cons_succ, ih m hm]
          ring

theorem foldl_pick_mem (f : ℕ → ℕ → ℕ) (hf : ∀ a i, f a i = a ∨ f a i = i) :
    ∀ (l : List ℕ) (a : ℕ), l.foldl f a = a ∨ l.foldl f a ∈ l := by
  intro l
  induction l with
  | nil => intro a; left; rfl
  | cons i l ih =>
      intro a
      rcases ih (f a i) with h | h
      · rcases hf a i with h2 | h2
        · left; rw [List.foldl_cons, h, h2]
        · right; rw [List.foldl_cons, h, h2]; exact List.mem_cons_self i l
      · right; exact List.mem_cons_of_mem i h

/-- The index picked by the residual-assignment `reduce` is in bounds. -/
theorem argmaxIdx_lt (ps : List ℚ) (h : 0 < ps.length) :
    argmaxIdx ps < ps.length := by
  unfold argmaxIdx
  rcases foldl_pick_mem
      (fun maxI i => if ps.getD i 0 > ps.getD maxI 0 then i else maxI)
      (fun a i => by
        dsimp only
        by_cases hc : ps.getD i 0 > ps.getD a 0
        · rw [if_pos hc]; exact Or.inr rfl
        · rw [if_neg hc]; exact Or.inl rfl)
      (List.range ps.length) 0 with h1 | h1
  · rw [h1]; exact h
  · exact List.mem_range.mp h1

/-- `normalizeToHundred` unfolded past its zero-total guard. -/
theorem normalizeToHundred_eq (ps : List ℚ) (h : ps.sum ≠ 0) :
    normalizeToHundred ps =
      (let scaled := ps.map (fun p => floorTenth (p * (100 / ps.sum)))
       let diff := roundTenth (100 - scaled.sum)
       if diff ≠ 0 ∧ 0 < scaled.length then
         scaled.set (argmaxIdx scaled)
           (roundTenth (scaled.getD (argmaxIdx scaled) 0 + diff))
       else scaled) := by
  unfold normalizeToHundred
  rw [if_neg h]

/-- C4 (amended): for every list with positive total, the largest-remainder
normalization returns shares summing to exactly 100 (scale by
`100/total`, truncate to tenths, hand the whole residual to the largest
share); and it is the identity on lists of one-decimal percentages that
already sum to exactly 100. -/
theorem normalize_to_hundred :
    (∀ ps : List ℚ, 0 < ps.sum → (normalizeToHundred ps).sum = 100) ∧
    (∀ ps : List ℚ, (∀ p ∈ ps, ∃ z : ℤ, p = (z : ℚ) / 10) → ps.sum = 100 →
      normalizeToHundred ps = ps) := by
  constructor
  · intro ps hpos
    have hne : ps.sum ≠ 0 := ne_of_gt hpos
    rw [normalizeToHundred_eq ps hne]
    dsimp only
    set scaled := ps.map (fun p => floorTenth (p * (100 / ps.sum))) with hscaled
    have hT : ∀ p ∈ scaled, ∃ z : ℤ, p = (z : ℚ) / 10 := by
      intro p hp
      rw [hscaled] at hp
      obtain ⟨q, _, hq2⟩ := List.mem_map.mp hp
      exact hq2 ▸ floorTenth_tenth _
    obtain ⟨z, hz⟩ := tenth_sum scaled hT
    have hdiff : roundTenth (100 - scaled.sum) = 100 - scaled.sum := by
      have he : (100 : ℚ) - scaled.sum = ((1000 - z : ℤ) : ℚ) / 10 := by
        rw [hz]; push_cast; ring
      rw [he, roundTenth_tenth, ← he]
    by_cases hd : roundTenth (100 - scaled.sum) = 0
    · rw [if_neg (by simp [hd])]
      have h0 : (100 : ℚ) - scaled.sum = 0 := by rw [← hdiff, hd]
      linarith
    · have hlen : 0 < scaled.length := by
        rw [hscaled, List.length_map]
        cases ps with
        | nil => simp at hpos
        | cons a l => simp
      rw [if_pos ⟨hd, hlen⟩]
      have hm : argmaxIdx scaled < scaled.length := argmaxIdx_lt scaled hlen
      obtain ⟨zm, hzm⟩ : ∃ zm : ℤ, scaled.getD (argmaxIdx scaled) 0 = (zm : ℚ) / 10 := by
        apply hT
        rw [List.getD_eq_getElem scaled 0 hm]
        exact List.getElem_mem hm
      have harg : roundTenth (scaled.getD (argmaxIdx scaled) 0
            + roundTenth (100 - scaled.sum))
          = scaled.getD (argmaxIdx scaled) 0 + roundTenth (100 - scaled.sum) := by
        rw [hdiff, hzm, hz]
        have he : (zm : ℚ) / 10 + (100 - (z : ℚ) / 10)
            = ((zm + 1000 - z : ℤ) : ℚ) / 10 := by push_cast; ring
        rw [he, roundTenth_tenth]
      rw [harg, sum_set_getD scaled _ _ hm, hdiff]
      ring
  · intro ps hT h100
    have hne : ps.sum ≠ 0 := by rw [h100]; norm_num
    rw [normalizeToHundred_eq ps hne]
    dsimp only
    rw [h100]
    have hmap : ps.map (fun p => floorTenth (p * (100 / (100 : ℚ)))) = ps := by
      have hcongr : ∀ p ∈ ps, floorTenth (p * (100 / (100 : ℚ))) = p := by
        intro p hp
        obtain ⟨zp, hzp⟩ := hT p hp
        subst hzp
        rw [show ((zp : ℚ) / 10 * (100 / 100)) = (zp : ℚ) / 10 by ring]
        exact floorTenth_tenth_id zp
      calc ps.map (fun p => floorTenth (p * (100 / (100 : ℚ))))
          = ps.map (fun p => p) := List.map_congr_left hcongr
        _ = ps := List.map_id' ps
    rw [hmap, h100]
    have hz : (100 : ℚ) - 100 = 0 := by norm_num
    rw [hz]
    have hr0 : roundTenth 0 = 0 := by norm_num [roundTenth, jsRound]
    rw [hr0]
    simp

/-- Witness for `normalize_to_hundred`: a one-decimal list summing to 100
is returned unchanged, and a positive-total list is renormalized to
exactly 100. -/
theorem normalize_to_hundred_witness :
    normalizeToHundred [60, 40] = [60, 40] ∧
      (normalizeToHundred [(70 : ℚ), 70]).sum = 100 := by
  constructor
  · apply normalize_to_hundred.2
    · intro p hp
      rcases List.mem_cons.mp hp with h | h
      · exact ⟨600, by rw [h]; norm_num⟩
      · exact ⟨400, by rw [List.mem_singleton.mp h]; norm_num⟩
    · norm_num
  · exact normalize_to_hundred.1 [70, 70] (by norm_num)

/-- C4 counterexample: `[33.3333, 33.3333, 33.3334]` sums to exactly 100,
yet normalization returns `[33.4, 33.3, 33.3]` — its first entry differs
from the input's first entry even after rounding both to one decimal
place, so the normalization is not the identity (to one decimal place) on
every list summing to 100. -/
theorem normalize_counterexample :
    ([333333/10000, 333333/10000, 333334/10000] : List ℚ).sum = 100 ∧
    normalizeToHundred [333333/10000, 333333/10000, 333334/10000]
      = [167/5, 333/10, 333/10] ∧
    (normalizeToHundred [333333/10000, 333333/10000, 333334/10000]).map roundTenth
      ≠ ([333333/10000, 333333/10000, 333334/10000] : List ℚ).map roundTenth := by
  refine ⟨by norm_num, ?_, ?_⟩
  · norm_num [normalizeToHundred, floorTenth, jsFloor, roundTenth, jsRound,
      argmaxIdx, List.range_succ]
  · have h1 : normalizeToHundred [333333/10000, 333333/10000, 333334/10000]
        = [167/5, 333/10, 333/10] := by
      norm_num [normalizeToHundred, floorTenth, jsFloor, roundTenth, jsRound,
        argmaxIdx, List.range_succ]
    rw [h1]
    norm_num [roundTenth, jsRound]

/-! ### Weighted-reallocation protective bounds (C2) -/

/-- Rounding to the nearest tenth lowers a value by less than 1/20. -/
theorem roundTenth_ge (q : ℚ) : q - 1/20 ≤ roundTenth q := by
  unfold roundTenth jsRound
  rw [le_div_iff (by norm_num : (0 : ℚ) < 10)]
  have h : (q * 10 + 1/2) - 1 < (⌊q * 10 + 1/2⌋ : ℚ) := Int.sub_one_lt_floor _
  linarith

/-- Rounding to the nearest tenth keeps values at or below 30 at or
below 30. -/
theorem roundTenth_le_30 (q : ℚ) (h : q ≤ 30) : roundTenth q ≤ 30 := by
  unfold roundTenth jsRound
  rw [div_le_iff (by norm_num : (0 : ℚ) < 10)]
  have hf : ⌊q * 10 + 1/2⌋ ≤ 300 := by
    have hmono := Int.floor_le_floor (α := ℚ)
      (show q * 10 + 1/2 ≤ 601/2 by linarith)
    have h2 : ⌊(601/2 : ℚ)⌋ = 300 := by norm_num
    omega
  have hc : ((⌊q * 10 + 1/2⌋ : ℤ) : ℚ) ≤ 300 := by exact_mod_cast hf
  linarith

/-- C2 (amended): before the final renormalization, every original will
beneficiary's adjusted share sits within rounding distance (1/20 of a
percentage point) of at least `originalPercentage × 0.80 × 0.5`, and every
newly added social beneficiary's share is at most 30; the subsequent
`normalizeToHundred` rescaling can push shares past both bounds. -/
theorem weighted_protective_bounds (socials : List SocialBeneficiary)
    (wbs : List FrontBeneficiary) (h0 : ∀ wb ∈ wbs, 0 ≤ wb.percentage) :
    (∀ wb ∈ wbs,
      wb.percentage * (4/5) * (1/2) - 1/20 ≤
        (adjustWillBeneficiary socials wb).2.percentage) ∧
    (∀ sb ∈ newFromSocial wbs socials,
      (socialAddEntry sb).2.percentage ≤ 30) := by
  constructor
  · intro wb hwb
    have hp := h0 wb hwb
    unfold adjustWillBeneficiary
    cases hex : findExclusion socials wb with
    | some ex =>
        dsimp only
        unfold willWeight
        have h := roundTenth_ge (wb.percentage * (4/5) * (1/2))
        linarith
    | none =>
        dsimp only
        unfold willWeight
        have h := roundTenth_ge (wb.percentage * (4/5))
        nlinarith
  · intro sb _
    unfold socialAddEntry
    dsimp only
    apply roundTenth_le_30
    exact min_le_right _ 30

/-- Witness for `weighted_protective_bounds` on a concrete plan. -/
theorem weighted_protective_bounds_witness :
    (100 : ℚ) * (4/5) * (1/2) - 1/20 ≤
      (adjustWillBeneficiary []
        { name := "A", category := "Family", percentage := 100
          walletAddress := "0xa", reason := "r" }).2.percentage := by
  have h := (weighted_protective_bounds []
    [{ name := "A", category := "Family", percentage := 100
       walletAddress := "0xa", reason := "r" }]
    (by intro wb hwb; rw [List.mem_singleton.mp hwb]; norm_num)).1
  exact h _ (List.mem_singleton_self _)

/-- Concrete inputs for the counterexample to the claim's protective
floors as stated on the *returned* (post-normalization) shares. -/
def cxAlice : FrontBeneficiary :=
  { name := "Alice", category := "Family", percentage := 100
    walletAddress := "0xa", reason := "longtime partner" }

def cxRemove : SocialBeneficiary :=
  { name := "Alice", percentage := 0, intent := "exclude Alice"
    relationship := "family", trustScore := 90, action := SocialAction.REMOVE }

def cxAdd (n : String) : SocialBeneficiary :=
  { name := n, percentage := 100, intent := "give all to " ++ n
    relationship := "friend", trustScore := 80, action := SocialAction.ADD }

def cxSocials : List SocialBeneficiary :=
  [cxRemove, cxAdd "Bob", cxAdd "Carl", cxAdd "Dave", cxAdd "Erin"]

def cxTina : FrontBeneficiary :=
  { name := "Tina", category := "Family", percentage := 1/10
    walletAddress := "0xt", reason := "r" }

def cxRemoveTina : SocialBeneficiary :=
  { name := "Tina", percentage := 0, intent := "exclude Tina"
    relationship := "family", trustScore := 90, action := SocialAction.REMOVE }

/-- `normalizeToHundred` never changes the number of shares. -/
theorem normalizeToHundred_length (ps : List ℚ) :
    (normalizeToHundred ps).length = ps.length := by
  unfold normalizeToHundred
  dsimp only
  split
  · rfl
  · split
    · rw [List.length_set, List.length_map]
    · rw [List.length_map]

/-- Reattaching a same-length percentage column recovers that column. -/
theorem map_percentage_setPercentages (bs : List FrontBeneficiary)
    (qs : List ℚ) (h : bs.length = qs.length) :
    (setPercentages bs qs).map (fun b => b.percentage) = qs := by
  induction bs generalizing qs with
  | nil =>
      cases qs with
      | nil => rfl
      | cons q qs => simp at h
  | cons b bs ih =>
      cases qs with
      | nil => simp at h
      | cons q qs =>
          simp only [setPercentages, List.zip_cons_cons, List.map_cons] at *
          have hl : bs.length = qs.length := by simpa using h
          have hih := ih qs hl
          simp only [setPercentages] at hih
          rw [hih]

/-- The percentage column returned by the reallocation is the normalized
column of the pre-normalization shares. -/
theorem adjusted_percentages (bs : List FrontBeneficiary) :
    (normalizeBeneficiaries bs).map (fun b => b.percentage) =
      normalizeToHundred (bs.map (fun b => b.percentage)) := by
  unfold normalizeBeneficiaries
  apply map_percentage_setPercentages
  rw [normalizeToHundred_length, List.length_map]

/-- C2 counterexample: with Alice authorized at 100% and social signals
removing her while adding four friends, the reallocation returns Alice at
33.6 — below the claimed removal floor 100 × 0.80 × 0.5 = 40; and even
before normalization a 0.1% beneficiary under a removal signal is rounded
to 0, below its floor 0.04. -/
theorem weighted_floors_counterexample :
    ((calculateWeightedDistribution [cxAlice] cxSocials 30).adjustedBeneficiaries.map
        (fun b => b.percentage)) = [168/5, 83/5, 83/5, 83/5, 83/5] ∧
    (168/5 : ℚ) < cxAlice.percentage * (4/5) * (1/2) ∧
    cxAlice.percentage = 100 ∧
    (adjustWillBeneficiary [cxRemoveTina] cxTina).2.percentage = 0 ∧
    cxTina.percentage = 1/10 ∧ ((0 : ℚ) < (1/10 : ℚ) * (4/5) * (1/2)) := by
  refine ⟨?_, by norm_num [cxAlice], rfl, ?_, rfl, by norm_num⟩
  · have hfind : findExclusion cxSocials cxAlice = some cxRemove := by decide
    have hnew : newFromSocial [cxAlice] cxSocials =
        [cxAdd "Bob", cxAdd "Carl", cxAdd "Dave", cxAdd "Erin"] := by decide
    have hpre : (preAdjusted [cxAlice] cxSocials).map (fun b => b.percentage) =
        [40, 20, 20, 20, 20] := by
      unfold preAdjusted
      rw [hnew]
      simp only [List.map_cons, List.map_nil, List.map_append, List.map_cons]
      unfold adjustWillBeneficiary
      rw [hfind]
      unfold socialAddEntry
      dsimp only
      norm_num [cxAlice, cxAdd, willWeight, socialWeight, jsMin, roundTenth, jsRound]
    have := adjusted_percentages (preAdjusted [cxAlice] cxSocials)
    unfold calculateWeightedDistribution
    dsimp only
    rw [this, hpre]
    norm_num [normalizeToHundred, floorTenth, jsFloor, roundTenth, jsRound,
      argmaxIdx, List.range_succ]
  · have hfind : findExclusion [cxRemoveTina] cxTina = some cxRemoveTina := by decide
    unfold adjustWillBeneficiary
    rw [hfind]
    dsimp only
    norm_num [cxTina, willWeight, roundTenth, jsRound]

/-! ### Signature-verifier canonicalization (C3) -/

/-- C3 (amended): the canonical encoding hashed by the verifier depends
only on the `address`, `name` and `percentage` values of the incoming
objects *in their list order* — client key order and extra keys are
erased — but it is not invariant under reordering the list itself. -/
theorem canonical_encoding_keyorder (l1 l2 : List RawBeneficiary)
    (h : List.Forall₂ (fun b1 b2 =>
      b1.getStr "address" = b2.getStr "address" ∧
      b1.getStr "name" = b2.getStr "name" ∧
      b1.getNum "percentage" = b2.getNum "percentage") l1 l2) :
    beneficiariesStr l1 = beneficiariesStr l2 := by
  unfold beneficiariesStr
  have hcanon : canonicalBeneficiaries l1 = canonicalBeneficiaries l2 := by
    unfold canonicalBeneficiaries
    induction h with
    | nil => rfl
    | @cons a b la lb hab hl ih =>
        simp only [List.map_cons, ih]
        have hhd : canonicalBeneficiary a = canonicalBeneficiary b := by
          unfold canonicalBeneficiary
          rw [hab.1, hab.2.1, hab.2.2]
        rw [hhd]
  rw [hcanon]

/-- Witness for `canonical_encoding_keyorder`: an object serialized with
scrambled key order and an extra key canonicalizes to the same signed
payload. -/
theorem canonical_encoding_keyorder_witness :
    beneficiariesStr
        [⟨[("address", JsonPrim.str "0xAAA"), ("name", JsonPrim.str "Ann"),
           ("percentage", JsonPrim.num 60)]⟩] =
      beneficiariesStr
        [⟨[("percentage", JsonPrim.num 60), ("extra", JsonPrim.str "x"),
           ("name", JsonPrim.str "Ann"), ("address", JsonPrim.str "0xAAA")]⟩] := by
  apply canonical_encoding_keyorder
  exact List.Forall₂.cons ⟨by decide, by decide, by decide⟩ List.Forall₂.nil

def rbAnn : RawBeneficiary :=
  ⟨[("address", JsonPrim.str "0xaaa"), ("name", JsonPrim.str "Ann"),
    ("percentage", JsonPrim.num 60)]⟩

def rbBob : RawBeneficiary :=
  ⟨[("address", JsonPrim.str "0xbbb"), ("name", JsonPrim.str "Bob"),
    ("percentage", JsonPrim.num 40)]⟩

/-- C3 counterexample: two set-equal permutations of the same two
beneficiaries produce *different* signed-message encodings — the
canonicalization fixes key order inside each object but preserves the
list's order, so verification operates on order-sensitive payloads. -/
theorem canonical_perm_counterexample :
    (canonicalBeneficiaries [rbAnn, rbBob]).Perm
        (canonicalBeneficiaries [rbBob, rbAnn]) ∧
      beneficiariesStr [rbAnn, rbBob] ≠ beneficiariesStr [rbBob, rbAnn] := by
  constructor
  · exact List.Perm.swap _ _ _
  · decide

/-! ### Concrete fixtures for lifecycle/fan-out claims -/

/-- A collaborator environment where every external call succeeds. -/
def okEnv : Env :=
  { today := "2024-01-02"
    now := 17000
    custodyGasBalance := 10 ^ 18
    deathCertConfigured := false
    deathCertAddress := ""
    deathRecord := Except.ok "0xdeath"
    symbolQuery := Except.ok "USDT"
    tokenBalanceOf := fun _ => Except.ok 1000
    nativeBalance := fun _ => Except.ok 0
    allowance := fun _ => Except.ok 1000
    transferFrom := fun _ _ _ => Except.ok "0xtx"
    sendNative := fun _ _ => Except.ok "0xtx"
    vaultBalance := Except.ok 0
    kitepassWithdraw := fun _ => Except.ok "0xw" }

def benA : Beneficiary := { address := "0xb", percentage := 60, name := "Ben" }

def benB : Beneficiary := { address := "0xc", percentage := 40, name := "Cay" }

def limitsA : SpendingLimits :=
  { perTxLimit := 1000, dailyLimit := 1000, dailySpent := 0
    lastResetDate := "2024-01-01" }

def willA : StoredWill :=
  { willId := "w1", owner := "0xalice", beneficiaries := [benA, benB]
    totalAmount := "1000", validUntil := 2000000000, signature := "sig"
    createdAt := 1, status := WillStatus.pending, useStablecoin := true
    spendingLimits := limitsA, useKitepass := false
    spendingRulesConfigured := false }

def lwA : LinkedWallet :=
  { willId := "w1", address := "0xalice", signature := "sig", approvedAt := 1
    status := LinkedWalletStatus.approved }

def storeA : Store := ⟨[willA], [lwA], []⟩

/-- The store after the will has reached its terminal status. -/
def storeExecuted : Store :=
  ⟨[{ willA with status := WillStatus.executed }], [lwA], []⟩

/-! ### Lifecycle idempotency guard (C5) -/

/-- C5: invoking execution for a will whose stored status is already
`executed` is rejected during validation: the call fails, returns no
result list, and leaves the store byte-for-byte unchanged (no
TransactionRecord, no status write, no limit mutation). -/
theorem execute_idempotency_guard (env : Env) (store : Store)
    (willId owner : String) (ov : Option (List Beneficiary))
    (will : StoredWill) (hfind : getWillById store willId = some will)
    (hst : will.status = WillStatus.executed) :
    (executeWill env store willId owner ov).1.success = false ∧
    (executeWill env store willId owner ov).1.transactions = none ∧
    (executeWill env store willId owner ov).2 = store := by
  unfold executeWill
  rw [hfind]
  dsimp only
  by_cases ho : jsToLower will.owner ≠ jsToLower owner
  · rw [if_pos ho]
    exact ⟨rfl, rfl, rfl⟩
  · rw [if_neg ho, if_pos (by rw [hst]; decide)]
    exact ⟨rfl, rfl, rfl⟩

/-- Witness for `execute_idempotency_guard`: the second invocation on a
concrete executed will is rejected with the store unchanged. -/
theorem execute_idempotency_guard_witness :
    (executeWill okEnv storeExecuted "w1" "0xalice" none).1.success = false ∧
    (executeWill okEnv storeExecuted "w1" "0xalice" none).2 = storeExecuted := by
  have h := execute_idempotency_guard okEnv storeExecuted "w1" "0xalice" none
    { willA with status := WillStatus.executed } (by decide) rfl
  exact ⟨h.1, h.2.2⟩

/-! ### Error-handling taxonomy (C6) -/

def willKP : StoredWill :=
  { willA with useKitepass := true, kitepassAddress := some "0xvault" }

def storeKP : Store := ⟨[willKP], [lwA], []⟩

def vaultFailEnv : Env := { okEnv with vaultBalance := Except.error "query failed" }

/-- C6 counterexample: a KitePass vault balance-query failure — a
collaborator failure, not a validation failure — aborts the whole
execution call with `success = false` instead of being recovered with a
fallback. -/
theorem kitepass_vault_failure_counterexample :
    (executeWill vaultFailEnv storeKP "w1" "0xalice" none).1 =
      { success := false, transactions := none, deathTxHash := none,
        error := some "Failed to get KitePass vault balance" } := by
  decide

/-- The override leaves the KitePass mode flags untouched. -/
theorem applyOverride_kitepass (ov : Option (List Beneficiary))
    (w : StoredWill) : kitepassEnabled (applyOverride ov w) = kitepassEnabled w := by
  unfold applyOverride
  cases ov with
  | none => rfl
  | some obs =>
      dsimp only
      split <;> rfl

/-- The override leaves the token-mode flag untouched. -/
theorem applyOverride_useStablecoin (ov : Option (List Beneficiary))
    (w : StoredWill) : (applyOverride ov w).useStablecoin = w.useStablecoin := by
  unfold applyOverride
  cases ov with
  | none => rfl
  | some obs =>
      dsimp only
      split <;> rfl

/-- C6 (amended): in Approve mode, once validation, the custody gas check
and the token-metadata query pass, the call always returns `success = true`
— whatever the attestation, balance-query, allowance-query and transfer
outcomes are, they are recovered locally into per-beneficiary results; but
in KitePass mode a vault balance-query failure (a collaborator failure) is
fatal right after the attestation step. -/
theorem collaborator_failure_taxonomy :
    (∀ (env : Env) (store : Store) (willId owner : String)
        (ov : Option (List Beneficiary)) (will : StoredWill),
      getWillById store willId = some will →
      jsToLower will.owner = jsToLower owner →
      will.status = WillStatus.pending →
      kitepassEnabled will = false →
      ¬ env.custodyGasBalance < minGasRequired →
      (will.useStablecoin = true → ∃ s, env.symbolQuery = Except.ok s) →
      (executeWill env store willId owner ov).1.success = true) ∧
    (∀ (env : Env) (store : Store) (will : StoredWill) (e : String),
      ¬ env.custodyGasBalance < minGasRequired →
      env.vaultBalance = Except.error e →
      executeWithKitepass env store will =
        ({ success := false,
           error := some "Failed to get KitePass vault balance" },
          (recordDeathDeclaration env store will).2)) := by
  constructor
  · intro env store willId owner ov will hfind howner hpend hkp hgas hsym
    unfold executeWill
    rw [hfind]
    dsimp only
    rw [if_neg (by rw [howner]; exact fun h => h rfl)]
    rw [if_neg (by rw [hpend]; exact fun h => h rfl)]
    rw [if_neg (by rw [applyOverride_kitepass, hkp]; exact Bool.false_ne_true)]
    unfold runApproveExecution
    rw [if_neg hgas]
    dsimp only
    rw [applyOverride_useStablecoin]
    cases hsc : will.useStablecoin with
    | true =>
        obtain ⟨s, hs⟩ := hsym hsc
        rw [if_pos rfl, hs]
    | false =>
        rw [if_neg Bool.false_ne_true]
  · intro env store will e hgas hvb
    unfold executeWithKitepass
    rw [if_neg hgas]
    dsimp only
    rw [hvb]

/-- Witness for `collaborator_failure_taxonomy`: the concrete approve-mode
execution on `storeA` succeeds, and a concrete KitePass vault failure is
fatal. -/
theorem collaborator_failure_taxonomy_witness :
    (executeWill okEnv storeA "w1" "0xalice" none).1.success = true ∧
    executeWithKitepass vaultFailEnv storeKP willKP =
      ({ success := false,
         error := some "Failed to get KitePass vault balance" },
        (recordDeathDeclaration vaultFailEnv storeKP willKP).2) := by
  constructor
  · exact collaborator_failure_taxonomy.1 okEnv storeA "w1" "0xalice" none willA
      (by decide) rfl rfl (by decide) (by decide) (fun _ => ⟨"USDT", rfl⟩)
  · exact collaborator_failure_taxonomy.2 vaultFailEnv storeKP willKP
      "query failed" (by decide) rfl

/-! ### Spending-limiter commit discipline (C7) -/

/-- An allowed check bounds the would-be commit by the daily cap. -/
theorem allowed_commit_le (today : String) (limits : SpendingLimits)
    (amount : ℤ)
    (h : (checkSpendingLimits today limits amount).2.allowed = true) :
    (resetLimits today limits).dailySpent + amount ≤
      (resetLimits today limits).dailyLimit := by
  unfold checkSpendingLimits at h
  dsimp only at h
  by_cases h1 : amount > (resetLimits today limits).perTxLimit
  · rw [if_pos h1] at h
    simp at h
  · rw [if_neg h1] at h
    by_cases h2 : (resetLimits today limits).dailySpent + amount >
        (resetLimits today limits).dailyLimit
    · rw [if_pos h2] at h
      simp at h
    · omega

/-- C7: (i) committing an allowed amount keeps `dailySpent ≤ dailyLimit`;
(ii) in the fan-out step, a `failed` result (limit rejection or transfer
failure) persists nothing and never commits — `dailySpent` stays at its
post-reset value — while (iii) a `confirmed` result commits exactly the
transferred amount and still satisfies the invariant. -/
theorem spending_limiter_commit :
    (∀ (today : String) (limits : SpendingLimits) (amount : ℤ),
      (checkSpendingLimits today limits amount).2.allowed = true →
      (updateDailySpent (checkSpendingLimits today limits amount).1
          amount).dailySpent ≤
        (checkSpendingLimits today limits amount).1.dailyLimit) ∧
    (∀ (env : Env) (useStable : Bool) (sym wAddr : String)
        (will : StoredWill) (store : Store) (bal : ℤ) (b : Beneficiary)
        (r : ExecutionResult),
      (processBeneficiary env useStable sym wAddr will store bal b).2.2 = some r →
      (r.status = ResultStatus.failed →
        (processBeneficiary env useStable sym wAddr will store bal b).2.1 = store ∧
        (processBeneficiary env useStable sym wAddr will store bal
            b).1.spendingLimits.dailySpent =
          (resetLimits env.today will.spendingLimits).dailySpent) ∧
      (r.status = ResultStatus.confirmed →
        (processBeneficiary env useStable sym wAddr will store bal
            b).1.spendingLimits.dailySpent =
          (resetLimits env.today will.spendingLimits).dailySpent +
            computeAmount bal b.percentage ∧
        (processBeneficiary env useStable sym wAddr will store bal
            b).1.spendingLimits.dailySpent ≤
          (processBeneficiary env useStable sym wAddr will store bal
            b).1.spendingLimits.dailyLimit)) := by
  constructor
  · intro today limits amount h
    rw [checkSpendingLimits_fst]
    unfold updateDailySpent
    dsimp only
    exact allowed_commit_le today limits amount h
  · intro env useStable sym wAddr will store bal b r hr
    unfold processBeneficiary at *
    dsimp only at *
    by_cases h0 : computeAmount bal b.percentage = 0
    · rw [if_pos h0] at hr
      simp at hr
    · rw [if_neg h0] at hr ⊢
      by_cases hal : (checkSpendingLimits env.today will.spendingLimits
          (computeAmount bal b.percentage)).2.allowed = true
      · rw [if_neg (by simp [hal])] at hr ⊢
        cases htx : (if useStable then
            env.transferFrom wAddr b.address (computeAmount bal b.percentage)
          else env.sendNative b.address (computeAmount bal b.percentage)) with
        | error msg =>
            rw [htx] at hr
            dsimp only at hr ⊢
            rw [Option.some_inj] at hr
            subst hr
            refine ⟨fun _ => ⟨rfl, ?_⟩, fun hc => by simp at hc⟩
            rw [checkSpendingLimits_fst]
        | ok txHash =>
            rw [htx] at hr
            dsimp only at hr ⊢
            rw [Option.some_inj] at hr
            subst hr
            refine ⟨fun hf => by simp at hf, fun _ => ⟨?_, ?_⟩⟩
            · unfold updateDailySpent
              rw [checkSpendingLimits_fst]
            · unfold updateDailySpent
              dsimp only
              rw [checkSpendingLimits_fst]
              exact allowed_commit_le env.today will.spendingLimits
                (computeAmount bal b.percentage) hal
      · rw [if_pos (by simp [hal])] at hr ⊢
        dsimp only at hr ⊢
        rw [Option.some_inj] at hr
        subst hr
        refine ⟨fun _ => ⟨rfl, ?_⟩, fun hc => by simp at hc⟩
        rw [checkSpendingLimits_fst]

/-- Witness for `spending_limiter_commit`: a concrete allowed check at
amount 600 commits to `dailySpent = 600 ≤ 1000`. -/
theorem spending_limiter_commit_witness :
    (updateDailySpent (checkSpendingLimits "2024-01-02" limitsA 600).1
        600).dailySpent ≤
      (checkSpendingLimits "2024-01-02" limitsA 600).1.dailyLimit :=
  spending_limiter_commit.1 "2024-01-02" limitsA 600 (by decide)

/-! ### Fan-out result accounting (C1) -/

/-- A rejected limit check always carries a rejection reason. -/
theorem checkReason_isSome (today : String) (limits : SpendingLimits)
    (amount : ℤ)
    (h : (checkSpendingLimits today limits amount).2.allowed = false) :
    (checkSpendingLimits today limits amount).2.reason.isSome = true := by
  unfold checkSpendingLimits
  dsimp only
  by_cases h1 : amount > (resetLimits today limits).perTxLimit
  · rw [if_pos h1]
    rfl
  · rw [if_neg h1]
    by_cases h2 : (resetLimits today limits).dailySpent + amount >
        (resetLimits today limits).dailyLimit
    · rw [if_pos h2]
      rfl
    · exfalso
      unfold checkSpendingLimits at h
      dsimp only at h
      rw [if_neg h1, if_neg h2] at h
      simp at h

/-- A beneficiary step either skips silently (zero amount) or produces one
result carrying the beneficiary's name, failures carrying a reason. -/
theorem processBeneficiary_result (env : Env) (useStable : Bool)
    (sym wAddr : String) (will : StoredWill) (store : Store) (bal : ℤ)
    (b : Beneficiary) :
    (computeAmount bal b.percentage = 0 →
      processBeneficiary env useStable sym wAddr will store bal b =
        (will, store, none)) ∧
    (computeAmount bal b.percentage ≠ 0 →
      ∃ r, (processBeneficiary env useStable sym wAddr will store bal b).2.2 =
          some r ∧
        r.beneficiary = b.name ∧
        (r.status = ResultStatus.failed → r.error.isSome = true)) := by
  constructor
  · intro h0
    unfold processBeneficiary
    rw [if_pos h0]
  · intro h0
    unfold processBeneficiary
    rw [if_neg h0]
    dsimp only
    by_cases hal : (checkSpendingLimits env.today will.spendingLimits
        (computeAmount bal b.percentage)).2.allowed = true
    · rw [if_neg (by simp [hal])]
      cases htx : (if useStable then
          env.transferFrom wAddr b.address (computeAmount bal b.percentage)
        else env.sendNative b.address (computeAmount bal b.percentage)) with
      | error msg =>
          refine ⟨_, rfl, rfl, fun _ => rfl⟩
      | ok txHash =>
          refine ⟨_, rfl, rfl, fun hc => by simp at hc⟩
    · rw [if_pos (by simp [hal])]
      dsimp only
      refine ⟨_, rfl, rfl, fun _ => ?_⟩
      have := checkReason_isSome env.today will.spendingLimits
        (computeAmount bal b.percentage) (by simpa using hal)
      simpa using this

/-- The inner fan-out loop appends, for exactly the beneficiaries with a
non-zero computed amount, one result each, in order; every appended
`failed` result carries a reason. -/
theorem processBeneficiaries_results (env : Env) (useStable : Bool)
    (sym wAddr : String) (bal : ℤ) :
    ∀ (bs : List Beneficiary) (will : StoredWill) (store : Store)
      (res : List ExecutionResult),
      ∃ new,
        (processBeneficiaries env useStable sym wAddr bal
            (will, store, res) bs).2.2 = res ++ new ∧
        new.map (fun r => r.beneficiary) =
          (bs.filter (fun b =>
            decide (computeAmount bal b.percentage ≠ 0))).map
            (fun b => b.name) ∧
        ∀ r ∈ new, r.status = ResultStatus.failed → r.error.isSome = true := by
  intro bs
  induction bs with
  | nil =>
      intro will store res
      exact ⟨[], by simp [processBeneficiaries], by simp, by simp⟩
  | cons b bs ih =>
      intro will store res
      have hstep : processBeneficiaries env useStable sym wAddr bal
          (will, store, res) (b :: bs) =
        processBeneficiaries env useStable sym wAddr bal
          (let r := processBeneficiary env useStable sym wAddr will store bal b
           (r.1, r.2.1, res ++ r.2.2.toList)) bs := by
        simp [processBeneficiaries]
      by_cases h0 : computeAmount bal b.percentage = 0
      · have hz := (processBeneficiary_result env useStable sym wAddr will
          store bal b).1 h0
        rw [hstep, hz]
        dsimp only
        obtain ⟨new, h1, h2, h3⟩ := ih will store (res ++ [])
        refine ⟨new, ?_, ?_, h3⟩
        · simpa using h1
        · rw [h2, List.filter_cons_of_neg (by simpa using h0)]
      · obtain ⟨r, hr, hname, herr⟩ := (processBeneficiary_result env useStable
          sym wAddr will store bal b).2 h0
        rw [hstep]
        dsimp only
        rw [hr]
        simp only [Option.toList_some]
        obtain ⟨new, h1, h2, h3⟩ := ih
          (processBeneficiary env useStable sym wAddr will store bal b).1
          (processBeneficiary env useStable sym wAddr will store bal b).2.1
          (res ++ [r])
        refine ⟨r :: new, ?_, ?_, ?_⟩
        · rw [h1, List.append_assoc]
          rfl
        · rw [List.map_cons, h2, hname,
            List.filter_cons_of_pos (by simpa using h0), List.map_cons]
        · intro x hx
          rcases List.mem_cons.mp hx with hx | hx
          · exact hx ▸ herr
          · exact h3 x hx

/-- A wallet is either skipped whole (guard failure: unqueryable/zero
balance, or unqueryable/zero stablecoin allowance) leaving the accumulator
untouched, or its inner loop runs on the queried non-zero balance. -/
theorem processWallet_skip_or_run (env : Env) (useStable : Bool)
    (sym : String) (acc : StoredWill × Store × List ExecutionResult)
    (lw : LinkedWallet) :
    processWallet env useStable sym acc lw = acc ∨
    ∃ bal, bal ≠ 0 ∧ walletBalanceQuery env useStable lw = Except.ok bal ∧
      processWallet env useStable sym acc lw =
        processBeneficiaries env useStable sym lw.address bal acc
          acc.1.beneficiaries := by
  unfold processWallet
  cases hq : walletBalanceQuery env useStable lw with
  | error e => exact Or.inl rfl
  | ok bal =>
      dsimp only
      by_cases hb : bal = 0
      · rw [if_pos hb]
        exact Or.inl rfl
      · rw [if_neg hb]
        cases hus : useStable with
        | false =>
            exact Or.inr ⟨bal, hb, rfl, rfl⟩
        | true =>
            cases ha : env.allowance lw.address with
            | error e => exact Or.inl rfl
            | ok a =>
                by_cases ha0 : a = 0
                · subst ha0
                  exact Or.inl rfl
                · refine Or.inr ⟨bal, hb, rfl, ?_⟩
                  show (if a = 0 then acc
                    else processBeneficiaries env true sym lw.address bal acc
                      acc.1.beneficiaries) =
                    processBeneficiaries env true sym lw.address bal acc
                      acc.1.beneficiaries
                  rw [if_neg ha0]

/-- C1 (amended): within one processed wallet, exactly the (wallet,
beneficiary) pairs with a non-zero computed amount produce a result — one
each, in beneficiary order, `failed` ones carrying a reason; a wallet
whose balance query fails or returns zero (or, for stablecoins, whose
allowance is zero or unqueryable) is skipped whole, its pairs producing no
results at all. -/
theorem fanout_pair_accounting :
    (∀ (env : Env) (useStable : Bool) (sym wAddr : String) (bal : ℤ)
        (will : StoredWill) (store : Store) (bs : List Beneficiary),
      ((processBeneficiaries env useStable sym wAddr bal
          (will, store, []) bs).2.2).map (fun r => r.beneficiary) =
        (bs.filter (fun b =>
          decide (computeAmount bal b.percentage ≠ 0))).map (fun b => b.name) ∧
      ∀ r ∈ (processBeneficiaries env useStable sym wAddr bal
          (will, store, []) bs).2.2,
        r.status = ResultStatus.failed → r.error.isSome = true) ∧
    (∀ (env : Env) (useStable : Bool) (sym : String)
        (acc : StoredWill × Store × List ExecutionResult) (lw : LinkedWallet),
      processWallet env useStable sym acc lw = acc ∨
      ∃ bal, bal ≠ 0 ∧ walletBalanceQuery env useStable lw = Except.ok bal ∧
        processWallet env useStable sym acc lw =
          processBeneficiaries env useStable sym lw.address bal acc
            acc.1.beneficiaries) := by
  constructor
  · intro env useStable sym wAddr bal will store bs
    obtain ⟨new, h1, h2, h3⟩ := processBeneficiaries_results env useStable
      sym wAddr bal bs will store []
    rw [h1, List.nil_append]
    exact ⟨h2, h3⟩
  · exact processWallet_skip_or_run

/-- Witness for `fanout_pair_accounting` at a concrete skipped wallet. -/
theorem fanout_pair_accounting_witness :
    processWallet okEnv true "USDT" (willA, storeA, []) lwA = (willA, storeA, []) ∨
    ∃ bal, bal ≠ 0 ∧ walletBalanceQuery okEnv true lwA = Except.ok bal ∧
      processWallet okEnv true "USDT" (willA, storeA, []) lwA =
        processBeneficiaries okEnv true "USDT" lwA.address bal
          (willA, storeA, []) willA.beneficiaries :=
  fanout_pair_accounting.2 okEnv true "USDT" (willA, storeA, []) lwA

def zeroBalEnv : Env := { okEnv with tokenBalanceOf := fun _ => Except.ok 0 }

/-- C1 counterexample: with one approved linked wallet holding a zero
token balance and two beneficiaries, the execution succeeds with an
*empty* result list — the two (wallet, beneficiary) pairs are silently
dropped, appearing neither as confirmed nor as failed. -/
theorem fanout_dropped_pair_counterexample :
    (executeWill zeroBalEnv storeA "w1" "0xalice" none).1 =
      { success := true, transactions := some [], deathTxHash := none,
        error := none } ∧
    getLinkedWalletsByWillId storeA "w1" = [lwA] ∧
    willA.beneficiaries.length = 2 := by
  refine ⟨by decide, by decide, rfl⟩

/-! ### Frame condition of an execution run (C10) -/

/-- A stored will evolved only in its `status` field. -/
def statusOnly (w w' : StoredWill) : Prop :=
  w' = { w with status := w'.status }

theorem statusOnly_refl (w : StoredWill) : statusOnly w w := rfl

theorem statusOnly_trans {a b c : StoredWill} (h1 : statusOnly a b)
    (h2 : statusOnly b c) : statusOnly a c := by
  unfold statusOnly at *
  rw [h2, h1]

/-- What the engine may do to the store during one call: keep the
linked-wallet rows, append transaction records, and touch nothing in any
will record except its `status`. -/
def FrameOK (s s' : Store) : Prop :=
  s'.linkedWallets = s.linkedWallets ∧
  (∃ ts, s'.transactions = s.transactions ++ ts) ∧
  List.Forall₂ statusOnly s.wills s'.wills

theorem forall₂_statusOnly_trans {l1 l2 l3 : List StoredWill}
    (h1 : List.Forall₂ statusOnly l1 l2) (h2 : List.Forall₂ statusOnly l2 l3) :
    List.Forall₂ statusOnly l1 l3 := by
  induction h1 generalizing l3 with
  | nil =>
      cases h2
      exact List.Forall₂.nil
  | @cons a b ta tb hab h ih =>
      cases h2 with
      | cons hbc h2' => exact List.Forall₂.cons (statusOnly_trans hab hbc) (ih h2')

theorem frameOK_refl (s : Store) : FrameOK s s :=
  ⟨rfl, ⟨[], by simp⟩, List.forall₂_same.mpr (fun w _ => statusOnly_refl w)⟩

theorem frameOK_trans {s1 s2 s3 : Store} (h1 : FrameOK s1 s2)
    (h2 : FrameOK s2 s3) : FrameOK s1 s3 := by
  obtain ⟨hl1, ⟨t1, ht1⟩, hw1⟩ := h1
  obtain ⟨hl2, ⟨t2, ht2⟩, hw2⟩ := h2
  exact ⟨hl2.trans hl1, ⟨t1 ++ t2, by rw [ht2, ht1, List.append_assoc]⟩,
    forall₂_statusOnly_trans hw1 hw2⟩

theorem frame_saveTransaction (s : Store) (tx : TransactionRecord) :
    FrameOK s (saveTransaction s tx) :=
  ⟨rfl, ⟨[tx], rfl⟩, List.forall₂_same.mpr (fun w _ => statusOnly_refl w)⟩

theorem frame_updateWillStatus (s : Store) (willId : String)
    (st : WillStatus) : FrameOK s (updateWillStatus s willId st) := by
  refine ⟨rfl, ⟨[], by simp [updateWillStatus]⟩, ?_⟩
  unfold updateWillStatus
  dsimp only
  rw [List.forall₂_map_right_iff]
  apply List.forall₂_same.mpr
  intro w _
  by_cases h : w.willId = willId
  · rw [if_pos h]
    exact rfl
  · rw [if_neg h]
    exact statusOnly_refl w

theorem frame_recordDeath (env : Env) (s : Store) (will : StoredWill) :
    FrameOK s (recordDeathDeclaration env s will).2 := by
  unfold recordDeathDeclaration
  split
  · exact frameOK_refl s
  · split
    · exact frameOK_refl s
    · exact frame_saveTransaction s _

theorem frame_processBeneficiary (env : Env) (useStable : Bool)
    (sym wAddr : String) (will : StoredWill) (store : Store) (bal : ℤ)
    (b : Beneficiary) :
    FrameOK store (processBeneficiary env useStable sym wAddr will store bal
      b).2.1 := by
  unfold processBeneficiary
  dsimp only
  split
  · exact frameOK_refl store
  · split
    · exact frameOK_refl store
    · split
      · exact frameOK_refl store
      · exact frame_saveTransaction store _

theorem frame_processBeneficiaries (env : Env) (useStable : Bool)
    (sym wAddr : String) (bal : ℤ) :
    ∀ (bs : List Beneficiary) (acc : StoredWill × Store × List ExecutionResult),
      FrameOK acc.2.1
        (processBeneficiaries env useStable sym wAddr bal acc bs).2.1 := by
  intro bs
  induction bs with
  | nil => intro acc; exact frameOK_refl acc.2.1
  | cons b bs ih =>
      intro acc
      have hstep : processBeneficiaries env useStable sym wAddr bal acc
          (b :: bs) =
        processBeneficiaries env useStable sym wAddr bal
          (let r := processBeneficiary env useStable sym wAddr acc.1 acc.2.1 bal b
           (r.1, r.2.1, acc.2.2 ++ r.2.2.toList)) bs := by
        simp [processBeneficiaries]
      rw [hstep]
      exact frameOK_trans
        (frame_processBeneficiary env useStable sym wAddr acc.1 acc.2.1 bal b)
        (ih _)

theorem frame_processWallet (env : Env) (useStable : Bool) (sym : String)
    (acc : StoredWill × Store × List ExecutionResult) (lw : LinkedWallet) :
    FrameOK acc.2.1 (processWallet env useStable sym acc lw).2.1 := by
  rcases processWallet_skip_or_run env useStable sym acc lw with h | ⟨bal, _, _, h⟩
  · rw [h]
    exact frameOK_refl acc.2.1
  · rw [h]
    exact frame_processBeneficiaries env useStable sym lw.address bal _ acc

theorem frame_walletsFold (env : Env) (useStable : Bool) (sym : String) :
    ∀ (lws : List LinkedWallet)
      (acc : StoredWill × Store × List ExecutionResult),
      FrameOK acc.2.1
        ((lws.foldl (processWallet env useStable sym) acc)).2.1 := by
  intro lws
  induction lws with
  | nil => intro acc; exact frameOK_refl acc.2.1
  | cons lw lws ih =>
      intro acc
      rw [List.foldl_cons]
      exact frameOK_trans (frame_processWallet env useStable sym acc lw) (ih _)

theorem frame_kitepassStep (env : Env) (will : StoredWill) (v : ℤ)
    (acc : Store × List ExecutionResult) (b : Beneficiary) :
    FrameOK acc.1 (kitepassStep env will v acc b).1 := by
  unfold kitepassStep
  dsimp only
  split
  · exact frameOK_refl acc.1
  · split
    · exact frame_saveTransaction acc.1 _
    · exact frameOK_refl acc.1

theorem frame_kitepassFold (env : Env) (will : StoredWill) (v : ℤ) :
    ∀ (bs : List Beneficiary) (acc : Store × List ExecutionResult),
      FrameOK acc.1 ((bs.foldl (kitepassStep env will v) acc)).1 := by
  intro bs
  induction bs with
  | nil => intro acc; exact frameOK_refl acc.1
  | cons b bs ih =>
      intro acc
      rw [List.foldl_cons]
      exact frameOK_trans (frame_kitepassStep env will v acc b) (ih _)

theorem frame_executeWithKitepass (env : Env) (store : Store)
    (will : StoredWill) : FrameOK store (executeWithKitepass env store will).2 := by
  unfold executeWithKitepass
  split
  · exact frameOK_refl store
  · dsimp only
    cases hv : env.vaultBalance with
    | error e => exact frame_recordDeath env store will
    | ok v =>
        dsimp only
        split
        · exact frameOK_trans (frame_recordDeath env store will)
            (frame_updateWillStatus _ _ _)
        · exact frameOK_trans (frame_recordDeath env store will)
            (frameOK_trans
              (frame_kitepassFold env will v will.beneficiaries
                ((recordDeathDeclaration env store will).2, []))
              (frame_updateWillStatus _ _ _))

theorem frame_runApproveExecution (env : Env) (store : Store)
    (willId : String) (will : StoredWill) :
    FrameOK store (runApproveExecution env store willId will).2 := by
  unfold runApproveExecution
  split
  · exact frameOK_refl store
  · dsimp only
    cases hsym : (if will.useStablecoin then env.symbolQuery
        else Except.ok "KITE") with
    | error e => exact frame_recordDeath env store will
    | ok sym =>
        dsimp only
        exact frameOK_trans (frame_recordDeath env store will)
          (frameOK_trans
            (frame_walletsFold env will.useStablecoin sym _
              (will, (recordDeathDeclaration env store will).2, []))
            (frame_updateWillStatus _ _ _))

theorem frame_executeWill (env : Env) (store : Store) (willId owner : String)
    (ov : Option (List Beneficiary)) :
    FrameOK store (executeWill env store willId owner ov).2 := by
  unfold executeWill
  cases hfind : getWillById store willId with
  | none => exact frameOK_refl store
  | some will =>
      dsimp only
      split
      · exact frameOK_refl store
      · split
        · exact frameOK_refl store
        · split
          · exact frame_executeWithKitepass env store _
          · exact frame_runApproveExecution env store willId _

/-- C10: an execution run never writes the mutated spending limits back:
the store coming out of `executeWill` has the same linked-wallet rows,
gains only appended TransactionRecords, and every stored will keeps its
pre-execution `spendingLimits` (and every other field) — only `status`
may change.  The store's `updateWillSpendingLimits` operation is never
invoked by the engine. -/
theorem execution_frame_no_limit_writeback (env : Env) (store : Store)
    (willId owner : String) (ov : Option (List Beneficiary)) :
    (executeWill env store willId owner ov).2.linkedWallets =
        store.linkedWallets ∧
    (∃ ts, (executeWill env store willId owner ov).2.transactions =
        store.transactions ++ ts) ∧
    List.Forall₂ (fun w w' =>
        w'.spendingLimits = w.spendingLimits ∧ w'.willId = w.willId ∧
          w' = { w with status := w'.status })
      store.wills (executeWill env store willId owner ov).2.wills := by
  obtain ⟨hl, ht, hw⟩ := frame_executeWill env store willId owner ov
  refine ⟨hl, ht, hw.imp ?_⟩
  intro a b h
  refine ⟨?_, ?_, h⟩
  · rw [h]
  · rw [h]

end Silene
